import Mathlib

/-!
Verification development for the `patch-crates` tool (src/main.rs).

The manifest (Cargo.toml) is modelled line-based: a line is a table header
`[name]`, a key/value binding `key = value`, or a blank/irrelevant line.
Values are opaque strings.  TOML parsing assigns each key/value line to the
most recently opened table (the root table `""` before any header) and fails
on a duplicate table header or a duplicate key within one table, as the
`toml` crate does.  Within this line model the raw-text substring test
`contains("[patch.crates-io]")` performed by the code holds exactly when the
exact header line is present, since values are opaque and no other line
renders that bracketed text.
-/

namespace PatchCrates

inductive Line where
  | header (name : String)
  | kv (key : String) (val : String)
  | blank
deriving DecidableEq, Repr

/-- A parsed binding: (table, key, value). -/
abbrev KV := String × String × String

/-- Assign each key/value line to the table opened by the latest header,
starting from table `cur`. -/
def assignTables : String → List Line → List KV
  | _, [] => []
  | _, Line.header n :: rest => assignTables n rest
  | cur, Line.kv k v :: rest => (cur, k, v) :: assignTables cur rest
  | cur, Line.blank :: rest => assignTables cur rest

/-- The table in effect after reading `ls`, starting from `cur`. -/
def lastTable (cur : String) (ls : List Line) : String :=
  ls.foldl (fun c l => match l with | Line.header n => n | _ => c) cur

def headersOf (ls : List Line) : List String :=
  ls.filterMap (fun l => match l with | Line.header n => some n | _ => none)

/-- Well-formedness of a TOML document in the line model: no duplicate
table header, no duplicate key within one table. -/
def tomlWF (ls : List Line) : Prop :=
  (headersOf ls).Nodup ∧ ((assignTables "" ls).map (fun kv => (kv.1, kv.2.1))).Nodup

instance (ls : List Line) : Decidable (tomlWF ls) :=
  show Decidable (_ ∧ _) from inferInstance

/-- `toml::from_str` in the line model. -/
def parseToml (ls : List Line) : Option (List KV) :=
  if tomlWF ls then some (assignTables "" ls) else none

/-- The keys of table `t`. -/
def keysOf (kvs : List KV) (t : String) : List String :=
  (kvs.filter (fun kv => kv.1 == t)).map (fun kv => kv.2.1)

/-- `parse_referenced_crates`: keys of `[dependencies]` and
`[dev-dependencies]` (the `HashSet` is modelled as the list of keys;
only membership is ever used). -/
def parse_referenced_crates (ls : List Line) : Option (List String) :=
  (parseToml ls).map (fun kvs => keysOf kvs "dependencies" ++ keysOf kvs "dev-dependencies")

/-- `parse_existing_patches`: keys of `[patch.crates-io]`. -/
def parse_existing_patches (ls : List Line) : Option (List String) :=
  (parseToml ls).map (fun kvs => keysOf kvs "patch.crates-io")

structure Crate where
  name : String
  repo_url : String
deriving DecidableEq, Repr

/-- The value text of an appended patch line. -/
def patchVal (c : Crate) : String :=
  "\x7b git = \"" ++ c.repo_url ++ "\", branch = \"main\" \x7d"

/-- The appended line `name = { git = "<url>", branch = "main" }`. -/
def patchLine (c : Crate) : Line := Line.kv c.name (patchVal c)

/-- The raw-text check `cargo_toml_content.contains("[patch.crates-io]")`. -/
def hasPatchHeader (ls : List Line) : Bool :=
  ls.contains (Line.header "patch.crates-io")

/-- The per-candidate test of the appending loop. -/
def applies (referenced existing : List String) (c : Crate) : Bool :=
  referenced.contains c.name && !(existing.contains c.name)

/-- `ensure_patches_in_cargo_toml`, with the file content passed and returned
explicitly.  Returns `(result, final file content)`: the parses happen before
the file is opened for appending, so on a parse failure the result is an
error (`none`) and the content is returned unchanged.  On success the writes
are: the section header (when the raw text lacks it), then one patch line per
candidate passing the test, in candidate order. -/
def ensure_patches_in_cargo_toml (crates : List Crate) (content : List Line) :
    Option (List Crate) × List Line :=
  match parse_referenced_crates content, parse_existing_patches content with
  | some referenced, some existing =>
    let content1 := if hasPatchHeader content then content
      else content ++ [Line.blank, Line.header "patch.crates-io"]
    let res := crates.foldl
      (fun (acc : List Crate × List Line) c =>
        if applies referenced existing c then (acc.1 ++ [c], acc.2 ++ [patchLine c]) else acc)
      ([], [])
    (some res.1, content1 ++ res.2)
  | _, _ => (none, content)

/-- The keys appearing under the `[patch.crates-io]` header in the raw text
(defined on the raw lines, without well-formedness). -/
def overrideSectionKeys (ls : List Line) : List String :=
  keysOf (assignTables "" ls) "patch.crates-io"

/-!
### The deny.toml updater

`update_deny_toml` is modelled on the abstract state of the policy file:
`none` when the file does not exist, otherwise the `sources.allow-git` array
if present (`none` when the key is absent or not an array).  Array items are
`Option String`: `some s` for a string item, `none` for a non-string item
(which the code skips when collecting existing URLs).  The `HashSet` that
the code fills — first with the applied crates' URLs, then with the existing
string items — is modelled as a duplicate-free list built by first-insertion
order; the code relies only on its membership and uniqueness.
-/

/-- Insert into the deduplicating accumulator. -/
def hsInsert (l : List String) (x : String) : List String :=
  if l.contains x then l else l ++ [x]

def hsOfList (xs : List String) : List String := xs.foldl hsInsert []

/-- `update_deny_toml`: returns the new abstract policy-file state. -/
def update_deny_toml (updated_crates : List Crate)
    (deny : Option (Option (List (Option String)))) :
    Option (Option (List (Option String))) :=
  match deny with
  | none => none
  | some allowGit =>
    let existing := (allowGit.getD []).filterMap id
    let git_repos := hsOfList (updated_crates.map Crate.repo_url ++ existing)
    some (some (git_repos.map some))

/-!
### External commands, paths and the orchestrators

An external command invocation is summarised by whether it could be spawned
(`Command::status()`/`output()` return `Ok` exactly when the process could be
launched) and whether its exit status was zero.  The code's `.status()?`
pattern aborts only on a spawn failure; `.map(|s| s.success())` and
`output().status.success()` consult the exit status.  Each repository's
environment fixes the outcome of each distinct command the orchestrator may
run (each is invoked at most once per repository) together with the results
of the filesystem interactions.  Orchestrators return the list of actions
actually performed, so that "stage did not run" is expressible.
-/

structure CmdResult where
  spawned : Bool
  exitZero : Bool
deriving DecidableEq, Repr

/-- `ExitStatus::success()` after a successful spawn, `false` otherwise:
the `.map(|status| status.success()).unwrap_or(false)` pattern. -/
def statusSuccess (r : CmdResult) : Bool := r.spawned && r.exitZero

inductive Action where
  | revParseVerify
  | checkoutMain
  | pullOriginMain
  | checkoutNewBranch
  | cargoUpdate
  | denyUpdate
  | gitAdd
  | gitCommit
  | gitPush
  | prCreate
  | branchDeleteLocal
  | branchDeleteRemote
  | resetHard
  | cargoCheck
deriving DecidableEq, Repr

/-- A filesystem path: `is_absolute` flag and normal components.
`file_name()` is the last component; the root path has none. -/
structure FsPath where
  absolute : Bool
  components : List String
deriving DecidableEq, Repr

def FsPath.fileName (p : FsPath) : Option String := p.components.getLast?

/-- The directory validation performed by `load_config`: every configured
directory must be an absolute path (nothing else is checked). -/
def dirs_valid (dirs : List FsPath) : Bool := dirs.all (·.absolute)

/-- Per-repository environment: results of the commands the orchestrators may
run in this repository, and of the filesystem interactions (`none` models a
read failure for `cargoToml`; `denyToml` is the abstract policy-file state). -/
structure RepoEnv where
  chdirOk : Bool
  revParse : CmdResult
  checkoutMain : CmdResult
  pull : CmdResult
  checkoutNew : CmdResult
  cargoToml : Option (List Line)
  cargoUpdate : CmdResult
  denyToml : Option (Option (List (Option String)))
  gitAdd : CmdResult
  gitCommit : CmdResult
  push : CmdResult
  pr : CmdResult
  resetHard : CmdResult
  cargoCheck : CmdResult
deriving DecidableEq, Repr

/-- `create_and_checkout_branch`: three `git` commands, each followed by
`.status().with_context(..)?` — only a spawn failure aborts; the exit
status is never consulted. -/
def create_and_checkout_branch (e : RepoEnv) : List Action × Except String Unit :=
  if !e.checkoutMain.spawned then
    ([Action.checkoutMain], Except.error "Failed to checkout main branch")
  else if !e.pull.spawned then
    ([Action.checkoutMain, Action.pullOriginMain], Except.error "Failed to pull from origin/main")
  else if !e.checkoutNew.spawned then
    ([Action.checkoutMain, Action.pullOriginMain, Action.checkoutNewBranch],
     Except.error "Failed to create and checkout branch")
  else
    ([Action.checkoutMain, Action.pullOriginMain, Action.checkoutNewBranch], Except.ok ())

/-- `commit_changes`: `git add` then `git commit`, both spawn-checked only. -/
def commit_changes (e : RepoEnv) : List Action × Except String Unit :=
  if !e.gitAdd.spawned then ([Action.gitAdd], Except.error "Failed to stage changes")
  else if !e.gitCommit.spawned then
    ([Action.gitAdd, Action.gitCommit], Except.error "Failed to commit changes")
  else ([Action.gitAdd, Action.gitCommit], Except.ok ())

inductive POutcome where
  | success
  | failure (msg : String)
  | panicked
deriving DecidableEq, Repr

/-- `patch_crate`: change directory (an error aborts), take the directory's
file name (`.expect` — panics when absent), test `git rev-parse --verify`
(spawn and exit status both consulted), create the branch when absent, patch
the manifest, and when at least one override was applied run `cargo update`,
the deny.toml update and the commit; with `execute` also push and open a PR
from the re-read manifest (whose content is the one `ensure` wrote). -/
def patch_crate (crates : List Crate) (execute : Bool) (p : FsPath) (e : RepoEnv) :
    List Action × POutcome :=
  if !e.chdirOk then ([], POutcome.failure "set_current_dir failed") else
  match p.fileName with
  | none => ([], POutcome.panicked)
  | some _ =>
    let t0 := [Action.revParseVerify]
    let branchStep : List Action × Except String Unit :=
      if !statusSuccess e.revParse then create_and_checkout_branch e else ([], Except.ok ())
    match branchStep with
    | (t1, Except.error msg) => (t0 ++ t1, POutcome.failure msg)
    | (t1, Except.ok ()) =>
      match e.cargoToml with
      | none => (t0 ++ t1, POutcome.failure "Failed to read Cargo.toml")
      | some content =>
        match ensure_patches_in_cargo_toml crates content with
        | (none, _) => (t0 ++ t1, POutcome.failure "Failed to parse Cargo.toml")
        | (some updated, newContent) =>
          let patchedStep : List Action × Except String Unit :=
            if updated.isEmpty then ([], Except.ok ())
            else if !e.cargoUpdate.spawned then
              ([Action.cargoUpdate], Except.error "Failed to run cargo update")
            else
              let c := commit_changes e
              ([Action.cargoUpdate, Action.denyUpdate] ++ c.1, c.2)
          match patchedStep with
          | (t2, Except.error msg) => (t0 ++ t1 ++ t2, POutcome.failure msg)
          | (t2, Except.ok ()) =>
            if execute then
              if !e.push.spawned then
                (t0 ++ t1 ++ t2 ++ [Action.gitPush], POutcome.failure "Failed to push branch")
              else
                match parse_existing_patches newContent with
                | none =>
                  (t0 ++ t1 ++ t2 ++ [Action.gitPush],
                   POutcome.failure "Failed to parse Cargo.toml")
                | some existing2 =>
                  let _relevant := crates.filter (fun c => existing2.contains c.name)
                  if !e.pr.spawned then
                    (t0 ++ t1 ++ t2 ++ [Action.gitPush, Action.prCreate],
                     POutcome.failure "Failed to create pull request")
                  else
                    (t0 ++ t1 ++ t2 ++ [Action.gitPush, Action.prCreate], POutcome.success)
            else (t0 ++ t1 ++ t2, POutcome.success)

inductive BatchOutcome where
  | panicked
  | ok (successful unsuccessful : List FsPath)
deriving DecidableEq, Repr

/-- The loop of `patch_crates`: collect each directory into the success or
failure bucket; a panic propagates and aborts the whole process. -/
def patch_crates_loop (crates : List Crate) (execute : Bool) :
    List (FsPath × RepoEnv) → BatchOutcome
  | [] => BatchOutcome.ok [] []
  | (p, e) :: rest =>
    match (patch_crate crates execute p e).2 with
    | POutcome.panicked => BatchOutcome.panicked
    | POutcome.failure _ =>
      match patch_crates_loop crates execute rest with
      | BatchOutcome.panicked => BatchOutcome.panicked
      | BatchOutcome.ok s u => BatchOutcome.ok s (p :: u)
    | POutcome.success =>
      match patch_crates_loop crates execute rest with
      | BatchOutcome.panicked => BatchOutcome.panicked
      | BatchOutcome.ok s u => BatchOutcome.ok (p :: s) u

/-- `patch_crates`: run the loop, then the report, whose
`cr.file_name().unwrap()` panics on a bucketed path without a file name. -/
def patch_crates (crates : List Crate) (execute : Bool)
    (repos : List (FsPath × RepoEnv)) : BatchOutcome :=
  match patch_crates_loop crates execute repos with
  | BatchOutcome.panicked => BatchOutcome.panicked
  | BatchOutcome.ok s u =>
    if (s ++ u).all (fun p => p.fileName.isSome) then BatchOutcome.ok s u
    else BatchOutcome.panicked

inductive UStep where
  | panicked
  | skipped
  | mainFail
  | updateFail
  | checkFail
  | ok
deriving DecidableEq, Repr

/-- One iteration of `update_and_check`: the directory name is taken
(`.expect` — panics when absent) before the `set_current_dir` test; a failed
directory change skips the body entirely (no command, no bucket).  Inside:
`checkout_and_pull` (two spawn-checked commands), `list_relevant_crates`
(reads and parses the manifest), spawn-checked `cargo update`, and
`cargo check` whose spawn failure or non-zero exit both count as failure. -/
def update_one (crates : List Crate) (p : FsPath) (e : RepoEnv) : List Action × UStep :=
  match p.fileName with
  | none => ([], UStep.panicked)
  | some _ =>
    if !e.chdirOk then ([], UStep.skipped)
    else if !e.checkoutMain.spawned then ([Action.checkoutMain], UStep.mainFail)
    else if !e.pull.spawned then
      ([Action.checkoutMain, Action.pullOriginMain], UStep.mainFail)
    else
      match e.cargoToml with
      | none => ([Action.checkoutMain, Action.pullOriginMain], UStep.updateFail)
      | some content =>
        match parse_referenced_crates content with
        | none => ([Action.checkoutMain, Action.pullOriginMain], UStep.updateFail)
        | some referenced =>
          let _relevant := crates.filter (fun c => referenced.contains c.name)
          if !e.cargoUpdate.spawned then
            ([Action.checkoutMain, Action.pullOriginMain, Action.cargoUpdate], UStep.updateFail)
          else if !statusSuccess e.cargoCheck then
            ([Action.checkoutMain, Action.pullOriginMain, Action.cargoUpdate, Action.cargoCheck],
             UStep.checkFail)
          else
            ([Action.checkoutMain, Action.pullOriginMain, Action.cargoUpdate, Action.cargoCheck],
             UStep.ok)

inductive UBatch where
  | panicked
  | report (successes mainFailures updateFailures checkFailures : List String)
deriving DecidableEq, Repr

/-- `update_and_check`: bucket each directory's name by its step outcome;
a skipped directory lands in no bucket; a panic aborts the process. -/
def update_and_check (crates : List Crate) : List (FsPath × RepoEnv) → UBatch
  | [] => UBatch.report [] [] [] []
  | (p, e) :: rest =>
    match p.fileName with
    | none => UBatch.panicked
    | some n =>
      match (update_one crates p e).2 with
      | UStep.panicked => UBatch.panicked
      | UStep.skipped => update_and_check crates rest
      | UStep.mainFail =>
        match update_and_check crates rest with
        | UBatch.panicked => UBatch.panicked
        | UBatch.report s m u c => UBatch.report s (n :: m) u c
      | UStep.updateFail =>
        match update_and_check crates rest with
        | UBatch.panicked => UBatch.panicked
        | UBatch.report s m u c => UBatch.report s m (n :: u) c
      | UStep.checkFail =>
        match update_and_check crates rest with
        | UBatch.panicked => UBatch.panicked
        | UBatch.report s m u c => UBatch.report s m u (n :: c)
      | UStep.ok =>
        match update_and_check crates rest with
        | UBatch.panicked => UBatch.panicked
        | UBatch.report s m u c => UBatch.report (n :: s) m u c

inductive RStep where
  | panicked
  | skipped
  | failed
  | ok
deriving DecidableEq, Repr

/-- One iteration of `reset`: name first (panics when absent), then the
`set_current_dir` test (failure skips silently), then a spawn-checked
`git reset --hard`. -/
def reset_one (p : FsPath) (e : RepoEnv) : List Action × RStep :=
  match p.fileName with
  | none => ([], RStep.panicked)
  | some _ =>
    if !e.chdirOk then ([], RStep.skipped)
    else if !e.resetHard.spawned then ([Action.resetHard], RStep.failed)
    else ([Action.resetHard], RStep.ok)

inductive RBatch where
  | panicked
  | report (successes failures : List String)
deriving DecidableEq, Repr

/-- `reset` over all directories. -/
def reset (ds : List (FsPath × RepoEnv)) : RBatch :=
  match ds with
  | [] => RBatch.report [] []
  | (p, e) :: rest =>
    match p.fileName with
    | none => RBatch.panicked
    | some n =>
      match (reset_one p e).2 with
      | RStep.panicked => RBatch.panicked
      | RStep.skipped => reset rest
      | RStep.failed =>
        match reset rest with
        | RBatch.panicked => RBatch.panicked
        | RBatch.report s f => RBatch.report s (n :: f)
      | RStep.ok =>
        match reset rest with
        | RBatch.panicked => RBatch.panicked
        | RBatch.report s f => RBatch.report (n :: s) f

/-- One iteration of `cleanup_branches`: a failed directory change skips the
body; `git checkout main` is spawn-checked with an early return that
propagates out of the whole loop; the two branch deletions have their
results discarded and always run after a successfully spawned checkout. -/
def cleanup_one (e : RepoEnv) : List Action × Except String Unit :=
  if !e.chdirOk then ([], Except.ok ())
  else if !e.checkoutMain.spawned then
    ([Action.checkoutMain], Except.error "Failed to checkout main branch")
  else
    ([Action.checkoutMain, Action.branchDeleteLocal, Action.branchDeleteRemote], Except.ok ())

/-- `cleanup_branches`: returns the directories whose iteration completed and
the batch result; the first checkout spawn failure aborts the remaining
directories. -/
def cleanup_branches : List (FsPath × RepoEnv) → List FsPath × Except String Unit
  | [] => ([], Except.ok ())
  | (p, e) :: rest =>
    match (cleanup_one e).2 with
    | Except.error msg => ([], Except.error msg)
    | Except.ok () =>
      let r := cleanup_branches rest
      (p :: r.1, r.2)

/-! ### Concrete test fixtures -/

def okCmd : CmdResult := ⟨true, true⟩

/-- A spawn failure: `Command::status()` returns `Err`. -/
def spawnFail : CmdResult := ⟨false, false⟩

/-- The command is spawned but exits with a non-zero status. -/
def exitNonZero : CmdResult := ⟨true, false⟩

/-- An environment in which everything succeeds; the manifest contains an
empty `[patch.crates-io]` section and nothing referenced, deny.toml absent. -/
def goodEnv : RepoEnv where
  chdirOk := true
  revParse := okCmd
  checkoutMain := okCmd
  pull := okCmd
  checkoutNew := okCmd
  cargoToml := some [Line.header "patch.crates-io"]
  cargoUpdate := okCmd
  denyToml := none
  gitAdd := okCmd
  gitCommit := okCmd
  push := okCmd
  pr := okCmd
  resetHard := okCmd
  cargoCheck := okCmd

/-- `git checkout main` and `git commit` exit non-zero, everything else
succeeds. -/
def exitIgnoredEnv : RepoEnv :=
  { goodEnv with revParse := exitNonZero, checkoutMain := exitNonZero, gitCommit := exitNonZero }

/-- `git checkout main` cannot be spawned. -/
def checkoutFailEnv : RepoEnv := { goodEnv with checkoutMain := spawnFail }

/-- The directory change fails. -/
def noChdirEnv : RepoEnv := { goodEnv with chdirOk := false }

/-- An ordinary absolute repository path. -/
def repoPath : FsPath := ⟨true, ["repo"]⟩

def repoPath2 : FsPath := ⟨true, ["other"]⟩

/-- The filesystem root: absolute, but without a final component. -/
def rootPath : FsPath := ⟨true, []⟩

/-! ### Basic lemmas about the appending loop -/

lemma foldl_applies (referenced existing : List String) (crates : List Crate)
    (acc : List Crate × List Line) :
    crates.foldl
      (fun (acc : List Crate × List Line) c =>
        if applies referenced existing c then (acc.1 ++ [c], acc.2 ++ [patchLine c]) else acc)
      acc
    = (acc.1 ++ crates.filter (applies referenced existing),
       acc.2 ++ (crates.filter (applies referenced existing)).map patchLine) := by
  induction crates generalizing acc with
  | nil => simp
  | cons c cs ih =>
    by_cases hc : applies referenced existing c
    · simp [hc, ih]
    · simp [hc, ih]

lemma ensure_eq_of_parse (crates : List Crate) (content : List Line)
    (referenced existing : List String)
    (hR : parse_referenced_crates content = some referenced)
    (hP : parse_existing_patches content = some existing) :
    ensure_patches_in_cargo_toml crates content
      = (some (crates.filter (applies referenced existing)),
         (if hasPatchHeader content then content
          else content ++ [Line.blank, Line.header "patch.crates-io"])
           ++ (crates.filter (applies referenced existing)).map patchLine) := by
  rw [ensure_patches_in_cargo_toml, hR, hP]
  simp [foldl_applies]

/-! ### Structural lemmas about the line model -/

@[simp] lemma assignTables_nil (cur : String) : assignTables cur [] = [] := rfl

@[simp] lemma assignTables_cons_header (cur n : String) (ls : List Line) :
    assignTables cur (Line.header n :: ls) = assignTables n ls := rfl

@[simp] lemma assignTables_cons_kv (cur k v : String) (ls : List Line) :
    assignTables cur (Line.kv k v :: ls) = (cur, k, v) :: assignTables cur ls := rfl

@[simp] lemma assignTables_cons_blank (cur : String) (ls : List Line) :
    assignTables cur (Line.blank :: ls) = assignTables cur ls := rfl

@[simp] lemma lastTable_nil (cur : String) : lastTable cur [] = cur := rfl

@[simp] lemma lastTable_cons_header (cur n : String) (ls : List Line) :
    lastTable cur (Line.header n :: ls) = lastTable n ls := rfl

@[simp] lemma lastTable_cons_kv (cur k v : String) (ls : List Line) :
    lastTable cur (Line.kv k v :: ls) = lastTable cur ls := rfl

@[simp] lemma lastTable_cons_blank (cur : String) (ls : List Line) :
    lastTable cur (Line.blank :: ls) = lastTable cur ls := rfl

lemma assignTables_append (cur : String) (xs ys : List Line) :
    assignTables cur (xs ++ ys)
      = assignTables cur xs ++ assignTables (lastTable cur xs) ys := by
  induction xs generalizing cur with
  | nil => simp
  | cons l ls ih => cases l <;> simp [ih]

@[simp] lemma headersOf_nil : headersOf [] = [] := rfl

@[simp] lemma headersOf_cons_header (n : String) (ls : List Line) :
    headersOf (Line.header n :: ls) = n :: headersOf ls := rfl

@[simp] lemma headersOf_cons_kv (k v : String) (ls : List Line) :
    headersOf (Line.kv k v :: ls) = headersOf ls := rfl

@[simp] lemma headersOf_cons_blank (ls : List Line) :
    headersOf (Line.blank :: ls) = headersOf ls := rfl

lemma headersOf_append (xs ys : List Line) :
    headersOf (xs ++ ys) = headersOf xs ++ headersOf ys := by
  simp [headersOf, List.filterMap_append]

lemma mem_headersOf {n : String} {ls : List Line} :
    n ∈ headersOf ls ↔ Line.header n ∈ ls := by
  induction ls with
  | nil => simp
  | cons l ls ih => cases l <;> simp [ih]

lemma hasPatchHeader_iff {ls : List Line} :
    hasPatchHeader ls = true ↔ Line.header "patch.crates-io" ∈ ls := by
  simp [hasPatchHeader, List.elem_iff]

lemma keysOf_append (a b : List KV) (t : String) :
    keysOf (a ++ b) t = keysOf a t ++ keysOf b t := by
  simp [keysOf, List.filter_append]

lemma pair_mem_iff (kvs : List KV) (t k : String) :
    (t, k) ∈ kvs.map (fun kv => (kv.1, kv.2.1)) ↔ k ∈ keysOf kvs t := by
  simp only [keysOf, List.mem_map, List.mem_filter, beq_iff_eq, Prod.ext_iff]
  aesop

lemma assignTables_map_patchLine (cur : String) (cs : List Crate) :
    assignTables cur (cs.map patchLine)
      = cs.map (fun c => (cur, c.name, patchVal c)) := by
  induction cs with
  | nil => simp
  | cons c cs ih => simp [patchLine, ih]

lemma keysOf_const_table_eq (t : String) (cs : List Crate) :
    keysOf (cs.map (fun c => (t, c.name, patchVal c))) t = cs.map Crate.name := by
  induction cs with
  | nil => simp [keysOf]
  | cons c cs ih => simp [keysOf] at ih ⊢; simp [ih]

lemma keysOf_const_table_ne {s t : String} (h : s ≠ t) (cs : List Crate) :
    keysOf (cs.map (fun c => (s, c.name, patchVal c))) t = [] := by
  induction cs with
  | nil => simp [keysOf]
  | cons c cs ih =>
    simp only [keysOf, List.map_cons, List.filter_cons] at ih ⊢
    simpa [h] using ih

lemma keysOf_no_header {ls : List Line} {cur : String}
    (hcur : cur ≠ "patch.crates-io") (h : Line.header "patch.crates-io" ∉ ls) :
    keysOf (assignTables cur ls) "patch.crates-io" = [] := by
  induction ls generalizing cur with
  | nil => simp [keysOf]
  | cons l ls ih =>
    cases l with
    | header n =>
      have hn : n ≠ "patch.crates-io" := by
        intro hEq; exact h (by simp [hEq])
      exact (by simpa [keysOf] using ih hn (fun hm => h (List.mem_cons_of_mem _ hm)))
    | kv k v =>
      have := ih hcur (fun hm => h (List.mem_cons_of_mem _ hm))
      simpa [keysOf, hcur] using this
    | blank => exact ih hcur (fun hm => h (List.mem_cons_of_mem _ hm))

lemma lastTable_append (cur : String) (xs ys : List Line) :
    lastTable cur (xs ++ ys) = lastTable (lastTable cur xs) ys := by
  simp [lastTable, List.foldl_append]

lemma parseToml_eq_assign {ls : List Line} {kvs : List KV}
    (h : parseToml ls = some kvs) : kvs = assignTables "" ls := by
  unfold parseToml at h
  split at h
  · exact (Option.some.inj h).symm
  · cases h

lemma parseToml_wf {ls : List Line} {kvs : List KV}
    (h : parseToml ls = some kvs) : tomlWF ls := by
  unfold parseToml at h
  split at h
  · assumption
  · cases h

lemma applies_iff {R P : List String} {c : Crate} :
    applies R P c = true ↔ c.name ∈ R ∧ c.name ∉ P := by
  simp [applies, List.elem_iff]

/-- Shared helper: on a parse failure nothing is written. -/
lemma ensure_of_parse_none (crates : List Crate) (content : List Line)
    (h : parseToml content = none) :
    ensure_patches_in_cargo_toml crates content = (none, content) := by
  simp [ensure_patches_in_cargo_toml, parse_referenced_crates, parse_existing_patches, h]

lemma appliedNames_nodup {crates : List Crate} (hn : (crates.map Crate.name).Nodup)
    (R P : List String) :
    ((crates.filter (applies R P)).map Crate.name).Nodup :=
  List.Nodup.sublist (List.Sublist.map _ (List.filter_sublist _)) hn

lemma headersOf_map_patchLine (cs : List Crate) : headersOf (cs.map patchLine) = [] := by
  induction cs with
  | nil => rfl
  | cons c cs ih => simp [patchLine, ih]

/-- After a run whose appended lines land under the `[patch.crates-io]`
table — the raw text lacked the header, or that table was last — the written
manifest parses to the old bindings plus one `patch.crates-io` binding per
applied candidate (for distinct candidate names). -/
lemma parseToml_after_run {content : List Line} {kvs : List KV} {crates : List Crate}
    {R P : List String}
    (hp : parseToml content = some kvs)
    (hn : (crates.map Crate.name).Nodup)
    (hpl : hasPatchHeader content = false ∨ lastTable "" content = "patch.crates-io")
    (hRdef : R = keysOf kvs "dependencies" ++ keysOf kvs "dev-dependencies")
    (hPdef : P = keysOf kvs "patch.crates-io") :
    parseToml
      ((if hasPatchHeader content then content
        else content ++ [Line.blank, Line.header "patch.crates-io"])
        ++ (crates.filter (applies R P)).map patchLine)
      = some (kvs ++ (crates.filter (applies R P)).map
          (fun c => ("patch.crates-io", c.name, patchVal c))) := by
  have hkvs := parseToml_eq_assign hp
  have hwf := parseToml_wf hp
  set A := crates.filter (applies R P) with hAdef
  have hAnames : (A.map Crate.name).Nodup := appliedNames_nodup hn R P
  have hAnotP : ∀ n ∈ A.map Crate.name, n ∉ P := by
    intro n hnmem
    rcases List.mem_map.mp hnmem with ⟨c, hcA, rfl⟩
    exact (applies_iff.mp (List.of_mem_filter hcA)).2
  have hpairs : ∀ n ∈ A.map Crate.name,
      ("patch.crates-io", n) ∉ kvs.map (fun kv => (kv.1, kv.2.1)) := by
    intro n hnmem hmem
    exact hAnotP n hnmem (hPdef ▸ (pair_mem_iff kvs _ n).mp hmem)
  have hmapA : (A.map (fun c => (("patch.crates-io", c.name, patchVal c) : KV))).map
      (fun kv => (kv.1, kv.2.1))
      = (A.map Crate.name).map (fun n => ("patch.crates-io", n)) := by
    simp [List.map_map, Function.comp]
  have hpairsNodup : ((kvs ++ A.map (fun c => ("patch.crates-io", c.name, patchVal c))).map
      (fun kv => (kv.1, kv.2.1))).Nodup := by
    rw [List.map_append, hmapA]
    refine List.Nodup.append (by rw [hkvs]; exact hwf.2)
      (hAnames.map (fun a b hab => congrArg Prod.snd hab)) ?_
    intro x hx1 hx2
    rcases List.mem_map.mp hx2 with ⟨n, hnmem, rfl⟩
    exact hpairs n hnmem hx1
  have hassign : assignTables ""
      ((if hasPatchHeader content then content
        else content ++ [Line.blank, Line.header "patch.crates-io"]) ++ A.map patchLine)
      = kvs ++ A.map (fun c => ("patch.crates-io", c.name, patchVal c)) := by
    by_cases hh : hasPatchHeader content
    · have ht : lastTable "" content = "patch.crates-io" := by
        rcases hpl with hpl | hpl
        · rw [hh] at hpl; cases hpl
        · exact hpl
      rw [if_pos hh, assignTables_append, ht, assignTables_map_patchLine, hkvs]
    · rw [if_neg hh, assignTables_append, assignTables_append, lastTable_append]
      have h2 : lastTable (lastTable "" content) [Line.blank, Line.header "patch.crates-io"]
          = "patch.crates-io" := rfl
      rw [h2, assignTables_map_patchLine, hkvs]
      simp
  have hheaders : (headersOf
      ((if hasPatchHeader content then content
        else content ++ [Line.blank, Line.header "patch.crates-io"]) ++ A.map patchLine)).Nodup := by
    rw [headersOf_append, headersOf_map_patchLine, List.append_nil]
    by_cases hh : hasPatchHeader content
    · rw [if_pos hh]; exact hwf.1
    · rw [if_neg hh, headersOf_append]
      have hnotin : "patch.crates-io" ∉ headersOf content := by
        intro hm
        rw [show hasPatchHeader content = true from
          hasPatchHeader_iff.mpr (mem_headersOf.mp hm)] at hh
        exact hh rfl
      have : headersOf [Line.blank, Line.header "patch.crates-io"] = ["patch.crates-io"] := rfl
      rw [this]
      exact List.Nodup.append hwf.1 (List.nodup_singleton _)
        (by intro x hx1 hx2; rw [List.mem_singleton.mp hx2] at hx1; exact hnotin hx1)
  have hwf1 : tomlWF
      ((if hasPatchHeader content then content
        else content ++ [Line.blank, Line.header "patch.crates-io"]) ++ A.map patchLine) :=
    ⟨hheaders, by rw [hassign]; exact hpairsNodup⟩
  rw [parseToml, if_pos hwf1, hassign]

/-! ### Claim theorems -/

/-- Claim C1: for every manifest that parses and every candidate list,
`ensure_patches_in_cargo_toml` applies a candidate override iff its name is
in the referenced-name set (keys of `[dependencies]` and
`[dev-dependencies]`, as returned by `parse_referenced_crates`) and not in
the existing-patch set (keys of `[patch.crates-io]`, as returned by
`parse_existing_patches`); the applied list is exactly the filter of the
candidates, hence preserves their input order. -/
theorem ensure_applied_iff (crates : List Crate) (content : List Line)
    (referenced existing : List String)
    (hR : parse_referenced_crates content = some referenced)
    (hP : parse_existing_patches content = some existing) :
    (ensure_patches_in_cargo_toml crates content).1
      = some (crates.filter
          (fun c => referenced.contains c.name && !(existing.contains c.name))) := by
  rw [ensure_eq_of_parse crates content referenced existing hR hP]
  rfl

theorem ensure_applied_iff_witness :
    (ensure_patches_in_cargo_toml [⟨"foo", "u"⟩, ⟨"bar", "v"⟩]
        [Line.header "dependencies", Line.kv "foo" "1"]).1
      = some (([⟨"foo", "u"⟩, ⟨"bar", "v"⟩] : List Crate).filter
          (fun c => (["foo"] : List String).contains c.name
            && !(([] : List String).contains c.name))) :=
  ensure_applied_iff _ _ _ _ (by decide) (by decide)

/-- Claim C7: when the manifest text does not parse as TOML,
`ensure_patches_in_cargo_toml` returns an error and the manifest content is
returned unchanged — both parses precede every write, so no write occurs. -/
theorem ensure_parse_failure_no_write (crates : List Crate) (content : List Line)
    (h : parseToml content = none) :
    ensure_patches_in_cargo_toml crates content = (none, content) :=
  ensure_of_parse_none crates content h

theorem ensure_parse_failure_no_write_witness :
    ensure_patches_in_cargo_toml [⟨"foo", "u"⟩] [Line.kv "x" "1", Line.kv "x" "2"]
      = (none, [Line.kv "x" "1", Line.kv "x" "2"]) :=
  ensure_parse_failure_no_write _ _ (by decide)

/-- Claim C3 (counterexample): with the duplicate-name candidate list
`[(foo, u1), (foo, u2)]` and a manifest declaring `foo` with no override
section, both candidates pass the test (the existing-patch set is computed
once, before the loop), so `foo` appears twice in the override section of
the written manifest although it appeared at most once (not at all) before
the run. -/
theorem override_dup_counterexample :
    (overrideSectionKeys [Line.header "dependencies", Line.kv "foo" "1"]).Nodup
    ∧ ¬ (overrideSectionKeys
          (ensure_patches_in_cargo_toml [⟨"foo", "u1"⟩, ⟨"foo", "u2"⟩]
            [Line.header "dependencies", Line.kv "foo" "1"]).2).Nodup := by
  decide

/-- Claim C3 (amended): after any single run of `ensure_patches_in_cargo_toml`
on a manifest in which every dependency name appears at most once in the
override section, every name still appears at most once in the override
section — provided the candidate list mentions each name at most once (the
code checks candidates only against the pre-run existing-patch set, so a
name duplicated in the candidate list is appended once per occurrence). -/
theorem override_keys_nodup (crates : List Crate) (content : List Line)
    (hn : (crates.map Crate.name).Nodup)
    (h : (overrideSectionKeys content).Nodup) :
    (overrideSectionKeys (ensure_patches_in_cargo_toml crates content).2).Nodup := by
  cases hp : parseToml content with
  | none => rw [ensure_of_parse_none crates content hp]; exact h
  | some kvs =>
    have hkvs := parseToml_eq_assign hp
    have hR : parse_referenced_crates content
        = some (keysOf kvs "dependencies" ++ keysOf kvs "dev-dependencies") := by
      simp [parse_referenced_crates, hp]
    have hP : parse_existing_patches content = some (keysOf kvs "patch.crates-io") := by
      simp [parse_existing_patches, hp]
    rw [ensure_eq_of_parse crates content _ _ hR hP]
    set R := keysOf kvs "dependencies" ++ keysOf kvs "dev-dependencies" with hRdef
    set P := keysOf kvs "patch.crates-io" with hPdef
    set A := crates.filter (applies R P) with hAdef
    have hPkeys : P = overrideSectionKeys content := by
      rw [hPdef, overrideSectionKeys, ← hkvs]
    have hAnames : (A.map Crate.name).Nodup := appliedNames_nodup hn R P
    have hAnotP : ∀ n ∈ A.map Crate.name, n ∉ P := by
      intro n hnmem
      rcases List.mem_map.mp hnmem with ⟨c, hcA, rfl⟩
      have := (applies_iff.mp (List.of_mem_filter hcA)).2
      exact this
    by_cases hh : hasPatchHeader content
    · simp only [hh, if_true]
      show (overrideSectionKeys (content ++ A.map patchLine)).Nodup
      rw [overrideSectionKeys, assignTables_append, keysOf_append,
        assignTables_map_patchLine]
      by_cases ht : lastTable "" content = "patch.crates-io"
      · rw [ht, keysOf_const_table_eq]
        refine List.Nodup.append ?_ hAnames ?_
        · exact h
        · intro n hn1 hn2
          exact hAnotP n hn2 (hPkeys ▸ hn1)
      · rw [keysOf_const_table_ne ht]
        simpa using h
    · simp only [hh, if_false]
      show (overrideSectionKeys
        ((content ++ [Line.blank, Line.header "patch.crates-io"]) ++ A.map patchLine)).Nodup
      rw [overrideSectionKeys, assignTables_append, keysOf_append,
        assignTables_append, keysOf_append, assignTables_map_patchLine]
      have hnotin : Line.header "patch.crates-io" ∉ content := by
        intro hm
        rw [show hasPatchHeader content = true from hasPatchHeader_iff.mpr hm] at hh
        exact hh rfl
      have h0 : keysOf (assignTables "" content) "patch.crates-io" = [] :=
        keysOf_no_header (by decide) hnotin
      have h1 : keysOf (assignTables (lastTable "" content)
          [Line.blank, Line.header "patch.crates-io"]) "patch.crates-io" = [] := by
        simp [keysOf]
      have h2 : lastTable "" (content ++ [Line.blank, Line.header "patch.crates-io"])
          = "patch.crates-io" := by
        rw [lastTable_append]; rfl
      rw [h0, h1, h2, keysOf_const_table_eq]
      simpa using hAnames

theorem override_keys_nodup_witness :
    (overrideSectionKeys (ensure_patches_in_cargo_toml [⟨"foo", "u1"⟩]
        [Line.header "dependencies", Line.kv "foo" "1"]).2).Nodup :=
  override_keys_nodup _ _ (by decide) (by decide)

/-- Claim C2 (counterexample): the raw-text append is not idempotent for
every manifest.  With `[patch.crates-io]` present but not last (here
`[features]` is last), the appended `foo` line lands under `[features]`, so
the second run still finds `foo` unpatched, applies it again and changes the
text.  Moreover with a duplicated candidate name the first run writes two
`foo` keys under `[patch.crates-io]` and the second run fails to parse. -/
theorem ensure_idempotent_counterexample :
    ((ensure_patches_in_cargo_toml [⟨"foo", "u"⟩]
        [Line.header "patch.crates-io", Line.header "dependencies",
         Line.kv "foo" "1", Line.header "features"]).1 = some [⟨"foo", "u"⟩]
    ∧ (ensure_patches_in_cargo_toml [⟨"foo", "u"⟩]
        (ensure_patches_in_cargo_toml [⟨"foo", "u"⟩]
          [Line.header "patch.crates-io", Line.header "dependencies",
           Line.kv "foo" "1", Line.header "features"]).2).1 = some [⟨"foo", "u"⟩]
    ∧ (ensure_patches_in_cargo_toml [⟨"foo", "u"⟩]
        (ensure_patches_in_cargo_toml [⟨"foo", "u"⟩]
          [Line.header "patch.crates-io", Line.header "dependencies",
           Line.kv "foo" "1", Line.header "features"]).2).2
      ≠ (ensure_patches_in_cargo_toml [⟨"foo", "u"⟩]
          [Line.header "patch.crates-io", Line.header "dependencies",
           Line.kv "foo" "1", Line.header "features"]).2)
    ∧ (ensure_patches_in_cargo_toml [⟨"foo", "u"⟩, ⟨"foo", "u"⟩]
        (ensure_patches_in_cargo_toml [⟨"foo", "u"⟩, ⟨"foo", "u"⟩]
          [Line.header "dependencies", Line.kv "foo" "1"]).2).1 = none := by
  decide

/-- Claim C2 (amended): running `ensure_patches_in_cargo_toml` twice with the
same candidate list is idempotent — the second run applies zero overrides and
leaves the text of the first run unchanged — provided the candidate names are
pairwise distinct and the appended lines land under the override table, i.e.
the manifest's raw text lacks the `[patch.crates-io]` header (it is then
appended at the end) or that table is the last one in the manifest. -/
theorem ensure_idempotent (crates : List Crate) (content : List Line)
    (hn : (crates.map Crate.name).Nodup)
    (hpl : hasPatchHeader content = false ∨ lastTable "" content = "patch.crates-io")
    (u : List Crate) (c1 : List Line)
    (h1 : ensure_patches_in_cargo_toml crates content = (some u, c1)) :
    ensure_patches_in_cargo_toml crates c1 = (some [], c1) := by
  cases hp : parseToml content with
  | none =>
    rw [ensure_of_parse_none crates content hp] at h1
    simp at h1
  | some kvs =>
    have hR : parse_referenced_crates content
        = some (keysOf kvs "dependencies" ++ keysOf kvs "dev-dependencies") := by
      simp [parse_referenced_crates, hp]
    have hP : parse_existing_patches content = some (keysOf kvs "patch.crates-io") := by
      simp [parse_existing_patches, hp]
    rw [ensure_eq_of_parse crates content _ _ hR hP] at h1
    set R := keysOf kvs "dependencies" ++ keysOf kvs "dev-dependencies" with hRdef
    set P := keysOf kvs "patch.crates-io" with hPdef
    set A := crates.filter (applies R P) with hAdef
    have hc1 : c1 = (if hasPatchHeader content then content
        else content ++ [Line.blank, Line.header "patch.crates-io"]) ++ A.map patchLine :=
      ((Prod.ext_iff.mp h1).2).symm
    have hp1 : parseToml c1
        = some (kvs ++ A.map (fun c => ("patch.crates-io", c.name, patchVal c))) := by
      rw [hc1]
      exact parseToml_after_run hp hn hpl hRdef hPdef
    have hR1 : parse_referenced_crates c1 = some R := by
      rw [parse_referenced_crates, hp1]
      simp [keysOf_append,
        keysOf_const_table_ne (show "patch.crates-io" ≠ "dependencies" by decide),
        keysOf_const_table_ne (show "patch.crates-io" ≠ "dev-dependencies" by decide)]
    have hP1 : parse_existing_patches c1 = some (P ++ A.map Crate.name) := by
      rw [parse_existing_patches, hp1]
      simp [keysOf_append, keysOf_const_table_eq]
    rw [ensure_eq_of_parse crates c1 _ _ hR1 hP1]
    have hfilter : crates.filter (applies R (P ++ A.map Crate.name)) = [] := by
      rw [List.filter_eq_nil_iff]
      intro c hc hap
      obtain ⟨hcR, hcP⟩ := applies_iff.mp hap
      by_cases h2 : applies R P c
      · exact hcP (List.mem_append.mpr (Or.inr
          (List.mem_map.mpr ⟨c, List.mem_filter.mpr ⟨hc, h2⟩, rfl⟩)))
      · rw [Bool.not_eq_true, ← Bool.not_eq_true, applies_iff] at h2
        push_neg at h2
        exact hcP (List.mem_append.mpr (Or.inl (h2 hcR)))
    have hh1 : hasPatchHeader c1 = true := by
      rw [hc1, hasPatchHeader_iff]
      by_cases hh : hasPatchHeader content
      · exact List.mem_append.mpr (Or.inl (by
          rw [if_pos hh]; exact hasPatchHeader_iff.mp hh))
      · exact List.mem_append.mpr (Or.inl (by
          rw [if_neg hh]; exact List.mem_append.mpr (Or.inr (by simp))))
    rw [hfilter, hh1]
    simp

theorem ensure_idempotent_witness :
    ensure_patches_in_cargo_toml [⟨"foo", "u"⟩]
      ([Line.header "dependencies", Line.kv "foo" "1"]
        ++ [Line.blank, Line.header "patch.crates-io"] ++ [patchLine ⟨"foo", "u"⟩])
      = (some [],
         [Line.header "dependencies", Line.kv "foo" "1"]
           ++ [Line.blank, Line.header "patch.crates-io"] ++ [patchLine ⟨"foo", "u"⟩]) :=
  ensure_idempotent [⟨"foo", "u"⟩] [Line.header "dependencies", Line.kv "foo" "1"]
    (by decide) (Or.inl (by decide)) [⟨"foo", "u"⟩] _ (by decide)

lemma mem_foldl_hsInsert (xs : List String) (acc : List String) (x : String) :
    x ∈ xs.foldl hsInsert acc ↔ x ∈ acc ∨ x ∈ xs := by
  induction xs generalizing acc with
  | nil => simp
  | cons a as ih =>
    rw [List.foldl_cons, ih]
    unfold hsInsert
    by_cases h : acc.contains a
    · rw [if_pos h]
      have ha : a ∈ acc := List.elem_iff.mp h
      simp only [List.mem_cons]
      constructor
      · rintro (h1 | h1)
        · exact Or.inl h1
        · exact Or.inr (Or.inr h1)
      · rintro (h1 | h1 | h1)
        · exact Or.inl h1
        · exact Or.inl (h1 ▸ ha)
        · exact Or.inr h1
    · rw [if_neg h]
      simp only [List.mem_append, List.mem_singleton, List.mem_cons]
      tauto

lemma nodup_foldl_hsInsert (xs : List String) (acc : List String) (h : acc.Nodup) :
    (xs.foldl hsInsert acc).Nodup := by
  induction xs generalizing acc with
  | nil => exact h
  | cons a as ih =>
    rw [List.foldl_cons]
    apply ih
    unfold hsInsert
    by_cases hc : acc.contains a
    · rw [if_pos hc]; exact h
    · rw [if_neg hc]
      have ha : a ∉ acc := fun hm => hc (List.elem_iff.mpr hm)
      exact List.Nodup.append h (List.nodup_singleton a)
        (fun x hx1 hx2 => ha ((List.mem_singleton.mp hx2) ▸ hx1))

/-- Claim C8: when the policy file exists, the written `allow-git` list holds
exactly the union of the applied overrides' repository URLs and the
previously listed URL strings, each exactly once (the list is duplicate-free
and membership is the set union); when the file does not exist, the update is
a no-op that does not create it. -/
theorem update_deny_toml_spec (updated_crates : List Crate) :
    update_deny_toml updated_crates none = none
    ∧ ∀ allowGit : Option (List (Option String)), ∃ L : List String,
        update_deny_toml updated_crates (some allowGit) = some (some (L.map some))
        ∧ L.Nodup
        ∧ ∀ u : String, u ∈ L ↔
            u ∈ updated_crates.map Crate.repo_url ∨ some u ∈ allowGit.getD [] := by
  refine ⟨rfl, fun allowGit => ⟨_, rfl, nodup_foldl_hsInsert _ _ List.nodup_nil, fun u => ?_⟩⟩
  rw [hsOfList, mem_foldl_hsInsert]
  simp only [List.not_mem_nil, false_or, List.mem_append, List.mem_filterMap, id_eq]
  constructor
  · rintro (h | ⟨a, ha, rfl⟩)
    · exact Or.inl h
    · exact Or.inr ha
  · rintro (h | h)
    · exact Or.inl h
    · exact Or.inr ⟨some u, h, rfl⟩

/-- Claim C5 (evaluation of the divergence): `git checkout main` is spawned
but exits non-zero, yet `create_and_checkout_branch` proceeds to run
`git pull` and `git checkout -b` and returns success; likewise `git commit`
exiting non-zero leaves `commit_changes` successful.  The `.status()?`
pattern aborts only when the process cannot be spawned; the exit status is
never consulted, so a non-zero command result does not abort the
repository's remaining stages. -/
theorem nonzero_exit_ignored :
    exitIgnoredEnv.checkoutMain.exitZero = false
    ∧ create_and_checkout_branch exitIgnoredEnv
        = ([Action.checkoutMain, Action.pullOriginMain, Action.checkoutNewBranch],
           Except.ok ())
    ∧ exitIgnoredEnv.gitCommit.exitZero = false
    ∧ commit_changes exitIgnoredEnv = ([Action.gitAdd, Action.gitCommit], Except.ok ()) :=
  ⟨rfl, rfl, rfl, rfl⟩

/-- Claim C4 (counterexample): with `execute = true` and a manifest in which
zero overrides are applied (here `foo` is not referenced), `patch_crate`
does not short-circuit: it still pushes the branch and opens a pull request.
The claim's "no push, and no pull-request creation occur" fails. -/
theorem patch_crate_execute_counterexample :
    (ensure_patches_in_cargo_toml [⟨"foo", "u"⟩] [Line.header "patch.crates-io"]).1 = some []
    ∧ patch_crate [⟨"foo", "u"⟩] true repoPath goodEnv
        = ([Action.revParseVerify, Action.gitPush, Action.prCreate], POutcome.success) :=
  ⟨rfl, rfl⟩

/-- Claim C4 (amended): for every repository that reaches the manifest-patch
step, if that step applies zero overrides then `patch_crate` performs no
dependency update, no policy update and no commit; in a dry run
(`execute = false`) it also performs no push and no pull-request creation and
ends in success.  (With `execute = true` the code pushes and opens a pull
request even when zero overrides were applied.) -/
theorem patch_crate_zero_overrides (crates : List Crate) (p : FsPath) (e : RepoEnv)
    (n : String) (content : List Line)
    (hch : e.chdirOk = true) (hfn : p.fileName = some n)
    (hbr : statusSuccess e.revParse = true
      ∨ (e.checkoutMain.spawned = true ∧ e.pull.spawned = true ∧ e.checkoutNew.spawned = true))
    (hct : e.cargoToml = some content)
    (hzero : (ensure_patches_in_cargo_toml crates content).1 = some []) :
    ∃ t, patch_crate crates false p e = (t, POutcome.success)
      ∧ Action.cargoUpdate ∉ t ∧ Action.denyUpdate ∉ t ∧ Action.gitAdd ∉ t
      ∧ Action.gitCommit ∉ t ∧ Action.gitPush ∉ t ∧ Action.prCreate ∉ t := by
  obtain ⟨nc, hpair⟩ : ∃ nc, ensure_patches_in_cargo_toml crates content = (some [], nc) :=
    ⟨(ensure_patches_in_cargo_toml crates content).2, by rw [← hzero]⟩
  by_cases hrev : statusSuccess e.revParse
  · refine ⟨[Action.revParseVerify], ?_, by decide, by decide, by decide, by decide,
      by decide, by decide⟩
    simp [patch_crate, hch, hfn, hrev, hct, hpair]
  · rcases hbr with hbr | ⟨h1, h2, h3⟩
    · exact absurd hbr hrev
    · refine ⟨[Action.revParseVerify, Action.checkoutMain, Action.pullOriginMain,
        Action.checkoutNewBranch], ?_, by decide, by decide, by decide, by decide,
        by decide, by decide⟩
      simp [patch_crate, hch, hfn, hrev, hct, hpair,
        create_and_checkout_branch, h1, h2, h3]

theorem patch_crate_zero_overrides_witness :
    ∃ t, patch_crate [⟨"foo", "u"⟩] false repoPath goodEnv = (t, POutcome.success)
      ∧ Action.cargoUpdate ∉ t ∧ Action.denyUpdate ∉ t ∧ Action.gitAdd ∉ t
      ∧ Action.gitCommit ∉ t ∧ Action.gitPush ∉ t ∧ Action.prCreate ∉ t :=
  patch_crate_zero_overrides [⟨"foo", "u"⟩] repoPath goodEnv "repo"
    [Line.header "patch.crates-io"] (by decide) (by decide) (Or.inl (by decide))
    (by decide) (by decide)

/-- Claim C9: the filesystem root is absolute, so it passes the only check
`load_config` performs on directories, yet the patch, update-and-check and
reset operations all panic on it — `file_name().expect("checked")` has
nothing to return — instead of reporting a per-repository failure. -/
theorem root_path_panics :
    dirs_valid [rootPath] = true
    ∧ patch_crates [⟨"foo", "u"⟩] false [(rootPath, goodEnv)] = BatchOutcome.panicked
    ∧ update_and_check [⟨"foo", "u"⟩] [(rootPath, goodEnv)] = UBatch.panicked
    ∧ reset [(rootPath, goodEnv)] = RBatch.panicked :=
  ⟨rfl, rfl, rfl, rfl⟩

/-- Claim C10: in update-and-check, reset and cleanup, a directory whose
`set_current_dir` fails is silently skipped: no external command runs for it
and it appears in no bucket of the end-of-run report. -/
theorem chdir_fail_skipped (crates : List Crate) (p : FsPath) (e : RepoEnv) (n : String)
    (hfn : p.fileName = some n) (hch : e.chdirOk = false) :
    update_one crates p e = ([], UStep.skipped)
    ∧ reset_one p e = ([], RStep.skipped)
    ∧ cleanup_one e = ([], Except.ok ())
    ∧ update_and_check crates [(p, e)] = UBatch.report [] [] [] []
    ∧ reset [(p, e)] = RBatch.report [] [] := by
  have h1 : update_one crates p e = ([], UStep.skipped) := by simp [update_one, hfn, hch]
  have h2 : reset_one p e = ([], RStep.skipped) := by simp [reset_one, hfn, hch]
  refine ⟨h1, h2, by simp [cleanup_one, hch], ?_, ?_⟩
  · simp [update_and_check, hfn, h1]
  · simp [reset, hfn, h2]

theorem chdir_fail_skipped_witness :
    update_one [⟨"foo", "u"⟩] repoPath noChdirEnv = ([], UStep.skipped)
    ∧ reset_one repoPath noChdirEnv = ([], RStep.skipped)
    ∧ cleanup_one noChdirEnv = ([], Except.ok ())
    ∧ update_and_check [⟨"foo", "u"⟩] [(repoPath, noChdirEnv)] = UBatch.report [] [] [] []
    ∧ reset [(repoPath, noChdirEnv)] = RBatch.report [] [] :=
  chdir_fail_skipped [⟨"foo", "u"⟩] repoPath noChdirEnv "repo" (by decide) (by decide)

set_option maxHeartbeats 1000000 in
lemma patch_crate_ne_panicked (crates : List Crate) (execute : Bool) (p : FsPath)
    (e : RepoEnv) (n : String) (hn : p.fileName = some n) :
    (patch_crate crates execute p e).2 ≠ POutcome.panicked := by
  unfold patch_crate
  rw [hn]
  rcases hc : create_and_checkout_branch e with ⟨t1, r1⟩
  rcases hc2 : commit_changes e with ⟨t2, r2⟩
  cases r1 <;> cases r2 <;> · (repeat' split) <;> first | contradiction | simp

lemma update_one_ne_panicked (crates : List Crate) (p : FsPath) (e : RepoEnv)
    (n : String) (hn : p.fileName = some n) :
    (update_one crates p e).2 ≠ UStep.panicked := by
  unfold update_one
  rw [hn]
  (repeat' split) <;> simp_all

lemma update_one_ne_skipped (crates : List Crate) (p : FsPath) (e : RepoEnv)
    (n : String) (hn : p.fileName = some n) (hch : e.chdirOk = true) :
    (update_one crates p e).2 ≠ UStep.skipped := by
  unfold update_one
  rw [hn, hch]
  (repeat' split) <;> simp_all

lemma reset_one_ne_panicked (p : FsPath) (e : RepoEnv)
    (n : String) (hn : p.fileName = some n) :
    (reset_one p e).2 ≠ RStep.panicked := by
  unfold reset_one
  rw [hn]
  (repeat' split) <;> simp_all

lemma reset_one_ne_skipped (p : FsPath) (e : RepoEnv)
    (n : String) (hn : p.fileName = some n) (hch : e.chdirOk = true) :
    (reset_one p e).2 ≠ RStep.skipped := by
  unfold reset_one
  rw [hn, hch]
  (repeat' split) <;> simp_all

lemma patch_crates_loop_spec (crates : List Crate) (execute : Bool)
    (repos : List (FsPath × RepoEnv))
    (h : ∀ r ∈ repos, (r.1.fileName).isSome = true) :
    ∃ s u, patch_crates_loop crates execute repos = BatchOutcome.ok s u
      ∧ (∀ r ∈ repos, r.1 ∈ s ∨ r.1 ∈ u)
      ∧ (∀ q ∈ s, (q.fileName).isSome = true)
      ∧ (∀ q ∈ u, (q.fileName).isSome = true) := by
  induction repos with
  | nil => exact ⟨[], [], rfl, by simp, by simp, by simp⟩
  | cons r rest ih =>
    obtain ⟨p, e⟩ := r
    obtain ⟨s, u, hrec, hmem, hs, hu⟩ := ih (fun r hr => h r (List.mem_cons_of_mem _ hr))
    have hp : (p.fileName).isSome = true := h (p, e) (List.mem_cons_self _ _)
    obtain ⟨n, hn⟩ := Option.isSome_iff_exists.mp hp
    rcases hout : (patch_crate crates execute p e).2 with _ | msg | _
    · refine ⟨p :: s, u, ?_, ?_, ?_, hu⟩
      · simp only [patch_crates_loop, hout, hrec]
      · intro r hr
        rcases List.mem_cons.mp hr with hr | hr
        · exact Or.inl (hr ▸ List.mem_cons_self _ _)
        · rcases hmem r hr with h1 | h1
          exacts [Or.inl (List.mem_cons_of_mem _ h1), Or.inr h1]
      · intro q hq
        rcases List.mem_cons.mp hq with hq | hq
        exacts [hq ▸ hp, hs q hq]
    · refine ⟨s, p :: u, ?_, ?_, hs, ?_⟩
      · simp only [patch_crates_loop, hout, hrec]
      · intro r hr
        rcases List.mem_cons.mp hr with hr | hr
        · exact Or.inr (hr ▸ List.mem_cons_self _ _)
        · rcases hmem r hr with h1 | h1
          exacts [Or.inl h1, Or.inr (List.mem_cons_of_mem _ h1)]
      · intro q hq
        rcases List.mem_cons.mp hq with hq | hq
        exacts [hq ▸ hp, hu q hq]
    · exact absurd hout (patch_crate_ne_panicked crates execute p e n hn)

lemma update_and_check_spec (crates : List Crate) (repos : List (FsPath × RepoEnv))
    (h : ∀ r ∈ repos, (r.1.fileName).isSome = true) :
    ∃ s m uu c, update_and_check crates repos = UBatch.report s m uu c
      ∧ ∀ r ∈ repos, ∀ n, r.1.fileName = some n → r.2.chdirOk = true →
          n ∈ s ∨ n ∈ m ∨ n ∈ uu ∨ n ∈ c := by
  induction repos with
  | nil => exact ⟨[], [], [], [], rfl, by simp⟩
  | cons r rest ih =>
    obtain ⟨p, e⟩ := r
    obtain ⟨s, m, uu, c, hrec, hmem⟩ := ih (fun r hr => h r (List.mem_cons_of_mem _ hr))
    have hp : (p.fileName).isSome = true := h (p, e) (List.mem_cons_self _ _)
    obtain ⟨n, hn⟩ := Option.isSome_iff_exists.mp hp
    have htail : ∀ r ∈ rest, ∀ n', r.1.fileName = some n' → r.2.chdirOk = true →
        n' ∈ n :: s ∨ n' ∈ n :: m ∨ n' ∈ n :: uu ∨ n' ∈ n :: c := by
      intro r hr n' h1 h2
      rcases hmem r hr n' h1 h2 with h3 | h3 | h3 | h3
      exacts [Or.inl (List.mem_cons_of_mem _ h3),
        Or.inr (Or.inl (List.mem_cons_of_mem _ h3)),
        Or.inr (Or.inr (Or.inl (List.mem_cons_of_mem _ h3))),
        Or.inr (Or.inr (Or.inr (List.mem_cons_of_mem _ h3)))]
    rcases hout : (update_one crates p e).2
    case panicked => exact absurd hout (update_one_ne_panicked crates p e n hn)
    case skipped =>
      refine ⟨s, m, uu, c, ?_, ?_⟩
      · simp only [update_and_check, hn, hout, hrec]
      · intro r hr n' h1 h2
        rcases List.mem_cons.mp hr with hr | hr
        · exact absurd hout (by
            rw [hr] at h1 h2
            exact update_one_ne_skipped crates p e n' h1 h2)
        · exact hmem r hr n' h1 h2
    case mainFail =>
      refine ⟨s, n :: m, uu, c, by simp only [update_and_check, hn, hout, hrec], ?_⟩
      intro r hr n' h1 h2
      rcases List.mem_cons.mp hr with hr | hr
      · rw [hr] at h1; rw [hn] at h1
        exact Or.inr (Or.inl ((Option.some.inj h1) ▸ List.mem_cons_self _ _))
      · rcases hmem r hr n' h1 h2 with h3 | h3 | h3 | h3
        exacts [Or.inl h3, Or.inr (Or.inl (List.mem_cons_of_mem _ h3)),
          Or.inr (Or.inr (Or.inl h3)), Or.inr (Or.inr (Or.inr h3))]
    case updateFail =>
      refine ⟨s, m, n :: uu, c, by simp only [update_and_check, hn, hout, hrec], ?_⟩
      intro r hr n' h1 h2
      rcases List.mem_cons.mp hr with hr | hr
      · rw [hr] at h1; rw [hn] at h1
        exact Or.inr (Or.inr (Or.inl ((Option.some.inj h1) ▸ List.mem_cons_self _ _)))
      · rcases hmem r hr n' h1 h2 with h3 | h3 | h3 | h3
        exacts [Or.inl h3, Or.inr (Or.inl h3),
          Or.inr (Or.inr (Or.inl (List.mem_cons_of_mem _ h3))), Or.inr (Or.inr (Or.inr h3))]
    case checkFail =>
      refine ⟨s, m, uu, n :: c, by simp only [update_and_check, hn, hout, hrec], ?_⟩
      intro r hr n' h1 h2
      rcases List.mem_cons.mp hr with hr | hr
      · rw [hr] at h1; rw [hn] at h1
        exact Or.inr (Or.inr (Or.inr ((Option.some.inj h1) ▸ List.mem_cons_self _ _)))
      · rcases hmem r hr n' h1 h2 with h3 | h3 | h3 | h3
        exacts [Or.inl h3, Or.inr (Or.inl h3), Or.inr (Or.inr (Or.inl h3)),
          Or.inr (Or.inr (Or.inr (List.mem_cons_of_mem _ h3)))]
    case ok =>
      refine ⟨n :: s, m, uu, c, by simp only [update_and_check, hn, hout, hrec], ?_⟩
      intro r hr n' h1 h2
      rcases List.mem_cons.mp hr with hr | hr
      · rw [hr] at h1; rw [hn] at h1
        exact Or.inl ((Option.some.inj h1) ▸ List.mem_cons_self _ _)
      · rcases hmem r hr n' h1 h2 with h3 | h3 | h3 | h3
        exacts [Or.inl (List.mem_cons_of_mem _ h3), Or.inr (Or.inl h3),
          Or.inr (Or.inr (Or.inl h3)), Or.inr (Or.inr (Or.inr h3))]

lemma reset_spec (repos : List (FsPath × RepoEnv))
    (h : ∀ r ∈ repos, (r.1.fileName).isSome = true) :
    ∃ s f, reset repos = RBatch.report s f
      ∧ ∀ r ∈ repos, ∀ n, r.1.fileName = some n → r.2.chdirOk = true →
          n ∈ s ∨ n ∈ f := by
  induction repos with
  | nil => exact ⟨[], [], rfl, by simp⟩
  | cons r rest ih =>
    obtain ⟨p, e⟩ := r
    obtain ⟨s, f, hrec, hmem⟩ := ih (fun r hr => h r (List.mem_cons_of_mem _ hr))
    have hp : (p.fileName).isSome = true := h (p, e) (List.mem_cons_self _ _)
    obtain ⟨n, hn⟩ := Option.isSome_iff_exists.mp hp
    rcases hout : (reset_one p e).2
    case panicked => exact absurd hout (reset_one_ne_panicked p e n hn)
    case skipped =>
      refine ⟨s, f, by simp only [reset, hn, hout, hrec], ?_⟩
      intro r hr n' h1 h2
      rcases List.mem_cons.mp hr with hr | hr
      · exact absurd hout (by
          rw [hr] at h1 h2
          exact reset_one_ne_skipped p e n' h1 h2)
      · exact hmem r hr n' h1 h2
    case failed =>
      refine ⟨s, n :: f, by simp only [reset, hn, hout, hrec], ?_⟩
      intro r hr n' h1 h2
      rcases List.mem_cons.mp hr with hr | hr
      · rw [hr] at h1; rw [hn] at h1
        exact Or.inr ((Option.some.inj h1) ▸ List.mem_cons_self _ _)
      · rcases hmem r hr n' h1 h2 with h3 | h3
        exacts [Or.inl h3, Or.inr (List.mem_cons_of_mem _ h3)]
    case ok =>
      refine ⟨n :: s, f, by simp only [reset, hn, hout, hrec], ?_⟩
      intro r hr n' h1 h2
      rcases List.mem_cons.mp hr with hr | hr
      · rw [hr] at h1; rw [hn] at h1
        exact Or.inl ((Option.some.inj h1) ▸ List.mem_cons_self _ _)
      · rcases hmem r hr n' h1 h2 with h3 | h3
        exacts [Or.inl (List.mem_cons_of_mem _ h3), Or.inr h3]

/-- Claim C6 (counterexample): in the cleanup operation a failure to launch
`git checkout main` in the first repository propagates out of the loop and
aborts the batch: the second repository is never processed, although on its
own it would have completed. -/
theorem cleanup_aborts_counterexample :
    cleanup_branches [(repoPath, checkoutFailEnv), (repoPath2, goodEnv)]
      = ([], Except.error "Failed to checkout main branch")
    ∧ cleanup_branches [(repoPath2, goodEnv)] = ([repoPath2], Except.ok ()) :=
  ⟨rfl, rfl⟩

/-- Claim C6 (amended): for the patch, update-and-check and reset operations,
a failure in one repository never aborts the batch — every repository (in
update-and-check and reset: every repository whose directory change
succeeded; directories whose change fails are silently skipped) reaches its
own terminal outcome in the report, assuming no directory panics the
run (every configured directory has a final path component).  The cleanup
operation is the exception: a failure to launch its checkout command aborts
the remaining repositories (see the counterexample). -/
theorem batch_isolation_amended :
    (∀ (crates : List Crate) (execute : Bool) (repos : List (FsPath × RepoEnv)),
      (∀ r ∈ repos, (r.1.fileName).isSome = true) →
      ∃ s u, patch_crates crates execute repos = BatchOutcome.ok s u
        ∧ ∀ r ∈ repos, r.1 ∈ s ∨ r.1 ∈ u)
    ∧ (∀ (crates : List Crate) (repos : List (FsPath × RepoEnv)),
      (∀ r ∈ repos, (r.1.fileName).isSome = true) →
      ∃ s m uu c, update_and_check crates repos = UBatch.report s m uu c
        ∧ ∀ r ∈ repos, ∀ n, r.1.fileName = some n → r.2.chdirOk = true →
            n ∈ s ∨ n ∈ m ∨ n ∈ uu ∨ n ∈ c)
    ∧ (∀ repos : List (FsPath × RepoEnv),
      (∀ r ∈ repos, (r.1.fileName).isSome = true) →
      ∃ s f, reset repos = RBatch.report s f
        ∧ ∀ r ∈ repos, ∀ n, r.1.fileName = some n → r.2.chdirOk = true →
            n ∈ s ∨ n ∈ f) := by
  refine ⟨fun crates execute repos h => ?_, update_and_check_spec, reset_spec⟩
  obtain ⟨s, u, hloop, hmem, hs, hu⟩ := patch_crates_loop_spec crates execute repos h
  refine ⟨s, u, ?_, hmem⟩
  have hall : ((s ++ u).all (fun p => p.fileName.isSome)) = true :=
    List.all_eq_true.mpr (fun x hx => by
      rcases List.mem_append.mp hx with hx | hx
      exacts [hs x hx, hu x hx])
  simp only [patch_crates, hloop, hall, if_true]

theorem batch_isolation_witness :
    ∃ s u, patch_crates [⟨"foo", "u"⟩] false [(repoPath, goodEnv), (repoPath2, noChdirEnv)]
        = BatchOutcome.ok s u
      ∧ ∀ r ∈ [(repoPath, goodEnv), (repoPath2, noChdirEnv)], r.1 ∈ s ∨ r.1 ∈ u :=
  batch_isolation_amended.1 [⟨"foo", "u"⟩] false
    [(repoPath, goodEnv), (repoPath2, noChdirEnv)] (by decide)


end PatchCrates
